import Mathlib

/-!
Verification of the ergo-explorer core against its specification.

The development shallowly embeds the repository's source files:
* `src/block_provider.rs` — normalization of raw blocks (`process_block`,
  `process_outputs`) and the ordered fetch stream (`stream`);
* `src/block_persistence.rs` — input resolution (`populate_inputs`) and the
  persistence protocol (`store_blocks`, `update_blocks`);
* `src/model.rs` — the entity data model, including which columns are
  transient (never persisted).

Machine integers are modelled as `Nat` with explicit `% 2 ^ w` at the points
where the Rust source performs a narrowing cast (`as u16`, `as u8`, `as u32`).
Fallible effects of the store are modelled by explicit fault-injection
(`Faults`) and explicit outcome types distinguishing a returned error from a
process panic (the source uses both `?` and `.expect`).
-/

namespace Ergo

/-- Byte strings (`Vec<u8>` / `[u8; 32]`) are modelled as lists of naturals. -/
abbrev Bytes := List Nat

/-- `TxPointer` from `model.rs`: parent block height plus a u16 ordinal. -/
structure TxPointer where
  parent : Nat
  index : Nat
deriving DecidableEq, Repr

/-- `UtxoPointer` from `model.rs`: parent `TxPointer` plus a u16 ordinal. -/
structure UtxoPointer where
  parent : TxPointer
  index : Nat
deriving DecidableEq, Repr

/-- `InputPointer` from `model.rs`: parent `TxPointer` plus a u16 ordinal. -/
structure InputPointer where
  parent : TxPointer
  index : Nat
deriving DecidableEq, Repr

/-- `AssetPointer` from `model.rs`: parent `UtxoPointer` plus a u8 ordinal. -/
structure AssetPointer where
  parent : UtxoPointer
  index : Nat
deriving DecidableEq, Repr

/-- The `Mint`/`Transfer` action tag carried by an `Asset`
(`AssetAction` column in `model.rs`; the u8 wire encoding of the tag is a
store-internal detail, the tag itself is what the code branches on). -/
inductive AssetAction where
  | Mint : AssetAction
  | Transfer : AssetAction
deriving DecidableEq, Repr

/-- `Asset` entity from `model.rs`. -/
structure Asset where
  id : AssetPointer
  amount : Nat
  name : Bytes
  asset_action : AssetAction
deriving DecidableEq, Repr

/-- `Utxo` entity from `model.rs`. -/
structure Utxo where
  id : UtxoPointer
  amount : Nat
  box_id : Bytes
  address : Bytes
  tree : Bytes
  tree_t8 : Bytes
  assets : List Asset
deriving DecidableEq, Repr

/-- `InputRef` entity from `model.rs`: a resolved input reference. -/
structure InputRef where
  id : InputPointer
deriving DecidableEq, Repr

/-- `Transaction` entity from `model.rs`.  `transient_inputs` is marked
`#[column(transient)]` in the source: it exists only in memory during
resolution. -/
structure Transaction where
  id : TxPointer
  hash : Bytes
  utxos : List Utxo
  inputs : List InputRef
  transient_inputs : List Bytes
deriving DecidableEq, Repr

/-- `BlockHeader` entity from `model.rs`. -/
structure BlockHeader where
  id : Nat
  hash : Bytes
  prev_hash : Bytes
  timestamp : Nat
deriving DecidableEq, Repr

/-- `Block` entity from `model.rs`.  `weight` is marked
`#[column(transient)]` in the source. -/
structure Block where
  id : Nat
  header : BlockHeader
  transactions : List Transaction
  weight : Nat
deriving DecidableEq, Repr

/-! ### Raw (ergo-lib) side: the input of the normalizer -/

/-- A raw token entry carried by an output; `token_id` are the bytes of the
`TokenId` (identical to the bytes of the box identifier it derives from). -/
structure RawToken where
  token_id : Bytes
  amount : Nat
deriving DecidableEq, Repr

/-- A raw output box (`ErgoBox`): its content-derived box identifier, value,
and the three best-effort serialized fields (`sigma_serialize_bytes().ok()`,
`template_bytes().ok()`, `recreate_from_ergo_tree(..).ok()`), plus its
optional token list (`out.tokens()`). -/
structure ErgoBox where
  box_id : Bytes
  value : Nat
  ergo_tree_bytes : Option Bytes
  ergo_tree_t8 : Option Bytes
  address_bytes : Option Bytes
  tokens : Option (List RawToken)
deriving DecidableEq, Repr

/-- A raw transaction input: just the spent box identifier. -/
structure RawInput where
  box_id : Bytes
deriving DecidableEq, Repr

/-- A raw transaction: its id digest, inputs and output boxes. -/
structure RawTx where
  hash : Bytes
  inputs : List RawInput
  outputs : List ErgoBox
deriving DecidableEq, Repr

/-- A raw block header: height (u32), block id digest, parent id digest and
millisecond timestamp (u64). -/
structure RawHeader where
  height : Nat
  id : Bytes
  parent_id : Bytes
  timestamp : Nat
deriving DecidableEq, Repr

/-- A raw `FullBlock`; `block_transactions` collapses the
`b.block_transactions.transactions` wrapper of ergo-lib. -/
structure FullBlock where
  header : RawHeader
  block_transactions : List RawTx
deriving DecidableEq, Repr

/-! ### Normalizer (`block_provider.rs`) -/

/-- The asset-construction loop inside `process_outputs`
(`for (index, asset) in assets.enumerated()`): each token becomes an `Asset`
keyed by `(utxo_pointer, index as u8)`; the `is_mint` test compares the
token id against the box id of the first output of the whole `outs` slice
(`outs.first().is_some_and(|o| TokenId::from(o.box_id()) == asset.token_id)`). -/
def mk_assets (outs : List ErgoBox) (up : UtxoPointer) : Nat → List RawToken → List Asset
  | _, [] => []
  | i, t :: rest =>
    let is_mint : Bool :=
      match outs.head? with
      | some o => decide (o.box_id = t.token_id)
      | none => false
    { id := AssetPointer.mk up (i % 2 ^ 8)
      amount := t.amount
      name := t.token_id
      asset_action := if is_mint then AssetAction.Mint else AssetAction.Transfer }
      :: mk_assets outs up (i + 1) rest

/-- One iteration of the output loop of `process_outputs`: builds the `Utxo`
for output `out` at position `out_index`; the best-effort serialized fields
fall back to empty bytes (`unwrap_or(vec![])`). -/
def mk_utxo (outs : List ErgoBox) (tx_pointer : TxPointer) (out_index : Nat) (out : ErgoBox) : Utxo :=
  let utxo_pointer := UtxoPointer.mk tx_pointer (out_index % 2 ^ 16)
  { id := utxo_pointer
    amount := out.value
    box_id := out.box_id
    address := out.address_bytes.getD []
    tree := out.ergo_tree_bytes.getD []
    tree_t8 := out.ergo_tree_t8.getD []
    assets :=
      match out.tokens with
      | some ts => mk_assets outs utxo_pointer 0 ts
      | none => [] }

/-- The enumerated output loop of `process_outputs`. -/
def process_outputs_go (outs : List ErgoBox) (tx_pointer : TxPointer) : Nat → List ErgoBox → List Utxo
  | _, [] => []
  | i, o :: rest => mk_utxo outs tx_pointer i o :: process_outputs_go outs tx_pointer (i + 1) rest

/-- `process_outputs` from `block_provider.rs`: returns the accumulated box
weight (`asset_count + result_outs.len()`) together with the built outputs. -/
def process_outputs (outs : List ErgoBox) (tx_pointer : TxPointer) : Nat × List Utxo :=
  let result_outs := process_outputs_go outs tx_pointer 0 outs
  ((result_outs.map (fun u => u.assets.length)).sum + result_outs.length, result_outs)

/-- The enumerated transaction loop of `process_block`: accumulates the block
weight (`block_weight += box_weight; block_weight += tx.inputs.len()`) and
builds each `Transaction` with empty resolved inputs and the raw spent box
identifiers captured in `transient_inputs`. -/
def process_txs (height : Nat) : Nat → List RawTx → Nat × List Transaction
  | _, [] => (0, [])
  | i, tx :: rest =>
    let tx_id := TxPointer.mk height (i % 2 ^ 16)
    let res := process_outputs tx.outputs tx_id
    let transient := tx.inputs.map (fun inp => inp.box_id)
    let rec_rest := process_txs height (i + 1) rest
    (res.1 + tx.inputs.length + rec_rest.1,
      { id := tx_id
        hash := tx.hash
        utxos := res.2
        inputs := []
        transient_inputs := transient } :: rec_rest.2)

/-- `process_block` from `block_provider.rs`.  The Rust function returns
`Result` but has no failure path, so it is modelled as a total function.
The header is copied directly except the timestamp, which is
`(b.header.timestamp / 1000) as u32`, and the final weight is
`block_weight as u32`. -/
def process_block (b : FullBlock) : Block :=
  let res := process_txs b.header.height 0 b.block_transactions
  { id := b.header.height
    header :=
      { id := b.header.height
        hash := b.header.id
        prev_hash := b.header.parent_id
        timestamp := b.header.timestamp / 1000 % 2 ^ 32 }
    transactions := res.2
    weight := res.1 % 2 ^ 32 }

/-! ### Persistence model (`block_persistence.rs` over the redbit store)

The entity store itself is the external `redbit` crate.  Its visible
behaviour, as consumed by `block_persistence.rs`, is modelled from the spec:
typed entities addressed by primary pointer key (`put` overwrites the full
subtree of a block id, `delete` removes it) and a secondary index on the
output box identifier whose scan returns matching `Utxo` primary keys in
chain (key) order. -/

/-- A `Transaction` as durably stored: `transient_inputs` is marked
`#[column(transient)]` in `model.rs` and is dropped by persistence. -/
structure PersistedTransaction where
  id : TxPointer
  hash : Bytes
  utxos : List Utxo
  inputs : List InputRef
deriving DecidableEq, Repr

/-- A `Block` as durably stored: `weight` is marked `#[column(transient)]`
in `model.rs` and is dropped by persistence. -/
structure PersistedBlock where
  id : Nat
  header : BlockHeader
  transactions : List PersistedTransaction
deriving DecidableEq, Repr

/-- Projection of a `Transaction` to its persisted columns. -/
def persistTx (t : Transaction) : PersistedTransaction :=
  { id := t.id, hash := t.hash, utxos := t.utxos, inputs := t.inputs }

/-- Projection of a `Block` to its persisted columns. -/
def persistBlock (b : Block) : PersistedBlock :=
  { id := b.id, header := b.header, transactions := b.transactions.map persistTx }

/-- Modelled from the spec: the committed contents of the entity store —
the full entity subtrees of the committed blocks, in commit (chain) order. -/
structure StoreState where
  blocks : List PersistedBlock
deriving DecidableEq, Repr

/-- Modelled from the spec: `Block::store` writes the block's full entity
subtree under its primary key, replacing any subtree previously stored under
the same block id. -/
def StoreState.put (s : StoreState) (b : PersistedBlock) : StoreState :=
  { blocks := s.blocks.filter (fun x => decide (x.id ≠ b.id)) ++ [b] }

/-- Modelled from the spec: `Block::delete` removes the full entity subtree
stored under a block id (cascading through transactions, outputs, assets and
input refs). -/
def StoreState.deleteBlock (s : StoreState) (height : Nat) : StoreState :=
  { blocks := s.blocks.filter (fun x => decide (x.id ≠ height)) }

/-- Modelled from the spec: `Utxo::get_ids_by_box_id` — the secondary-index
scan by output box identifier, returning the primary keys of all committed
outputs whose `box_id` column equals `bid`, in chain order. -/
def StoreState.get_ids_by_box_id (s : StoreState) (bid : Bytes) : List UtxoPointer :=
  (s.blocks.map (fun pb =>
    (pb.transactions.map (fun t =>
      (t.utxos.filter (fun u => decide (u.box_id = bid))).map (fun u => u.id))).flatten)).flatten

/-- Fault injection for the external store: which box-id index lookups fail
(an I/O or encoding failure inside `Utxo::get_ids_by_box_id`) and which
block write transactions fail (an I/O or encoding failure inside
`begin_write`/`Block::store`/`commit` for that block id). -/
structure Faults where
  lookupFails : Bytes → Bool
  storeFails : Nat → Bool

/-- The fault-free store. -/
def noFaults : Faults := { lookupFails := fun _ => false, storeFails := fun _ => false }

/-- Outcome of a computation that can terminate the process: the source's
`.expect` call turns a lookup failure into a panic, modelled as
`processAbort`. -/
inductive PRes (α : Type) where
  | ok : α → PRes α
  | processAbort : PRes α
deriving DecidableEq, Repr

/-- Outcome of a persistence operation: success, an error returned to the
caller (`ChainSyncError` via `?`), or a process panic. -/
inductive SbOut where
  | ok : SbOut
  | storeErr : SbOut
  | processAbort : SbOut
deriving DecidableEq, Repr

/-- The body of the inner loop of `populate_inputs`: for each raw spent box
identifier run `Utxo::get_ids_by_box_id` (whose failure panics via
`.expect`), then push one `InputRef` — to the first match's coordinates
(`InputPointer::from_parent(utxo_pointer.parent, utxo_pointer.index())`) or
to the sentinel
(`InputPointer::from_parent(TxPointer::from_parent(BlockHeight(0), 0), 0)`). -/
def populate_tx (f : Faults) (s : StoreState) (inputsAcc : List InputRef) : List Bytes → PRes (List InputRef)
  | [] => PRes.ok inputsAcc
  | bid :: rest =>
    if f.lookupFails bid then PRes.processAbort
    else
      match (s.get_ids_by_box_id bid).head? with
      | some utxo_pointer =>
        populate_tx f s
          (inputsAcc ++ [InputRef.mk (InputPointer.mk utxo_pointer.parent utxo_pointer.index)]) rest
      | none =>
        populate_tx f s
          (inputsAcc ++ [InputRef.mk (InputPointer.mk (TxPointer.mk 0 0) 0)]) rest

/-- The outer loop of `populate_inputs` over the block's transactions. -/
def populate_txs (f : Faults) (s : StoreState) : List Transaction → PRes (List Transaction)
  | [] => PRes.ok []
  | tx :: rest =>
    match populate_tx f s tx.inputs tx.transient_inputs with
    | PRes.processAbort => PRes.processAbort
    | PRes.ok newInputs =>
      match populate_txs f s rest with
      | PRes.processAbort => PRes.processAbort
      | PRes.ok rest' => PRes.ok ({ tx with inputs := newInputs } :: rest')

/-- `populate_inputs` from `block_persistence.rs`, as a pure transformation of
the block against the read snapshot `s`. -/
def populate_block (f : Faults) (s : StoreState) (b : Block) : PRes Block :=
  match populate_txs f s b.transactions with
  | PRes.processAbort => PRes.processAbort
  | PRes.ok txs => PRes.ok { b with transactions := txs }

/-- `store_blocks` from `block_persistence.rs`: for each block in order, open
a read snapshot of the current store, resolve inputs against it, then write
the block's full subtree in one write transaction.  The returned state is the
durably committed store when the function returns; on a store failure the
in-flight transaction is rolled back (`?`), on a lookup failure the process
panics (`.expect`). -/
def store_blocks (f : Faults) (s : StoreState) : List Block → StoreState × SbOut
  | [] => (s, SbOut.ok)
  | b :: rest =>
    match populate_block f s b with
    | PRes.processAbort => (s, SbOut.processAbort)
    | PRes.ok b' =>
      if f.storeFails b'.id then (s, SbOut.storeErr)
      else store_blocks f (s.put (persistBlock b')) rest

/-- `update_blocks` from `block_persistence.rs`: delete the full subtree of
every given block id in one write transaction, commit it, then invoke
`store_blocks` on the replacement blocks. -/
def update_blocks (f : Faults) (s : StoreState) (blocks : List Block) : StoreState × SbOut :=
  let deleted := blocks.foldl (fun acc b => acc.deleteBlock b.id) s
  store_blocks f deleted blocks

/-! ### Fetcher (`stream` in `block_provider.rs`) -/

/-- `last_header.map_or(1, |h| h.id.0)`. -/
def last_height (last : Option BlockHeader) : Nat :=
  match last with
  | none => 1
  | some h => h.id

/-- The inclusive height range `last_height..=chain_tip.id` fed to the
fetch pipeline. -/
def stream_heights (chain_tip : BlockHeader) (last : Option BlockHeader) : List Nat :=
  List.range' (last_height last) (chain_tip.id + 1 - last_height last)

/-- Modelled from the spec: the `futures::stream::buffered` reordering
combinator (external crate).  After a set of fetch completions, the
combinator has emitted exactly the maximal contiguous prefix of the source
index sequence all of whose members have completed; emission order is source
order, independent of completion order and of the parallelism bound. -/
def bufferedEmit (n : Nat) (completed : List Nat) : List Nat :=
  (List.range n).takeWhile (fun i => decide (i ∈ completed))

/-- The `stream` method of `block_provider.rs`: fetch each height of
`stream_heights` (each fetch completing at some point of the completion
schedule `completed`), with results emitted through the `buffered par`
reorder stage. -/
def stream_emitted (fetch : Nat → FullBlock) (chain_tip : BlockHeader)
    (last : Option BlockHeader) (par : Nat) (completed : List Nat) : List FullBlock :=
  let hs := stream_heights chain_tip last
  (bufferedEmit hs.length completed).map (fun i => fetch (hs.getD i 0))

/-! ### Helper lemmas -/

/-- The resolution of a single raw spent box identifier against a store
snapshot: the first secondary-index match's coordinates, or the sentinel
pointer (height 0, tx 0, out 0). -/
def resolveOne (s : StoreState) (bid : Bytes) : InputRef :=
  match (s.get_ids_by_box_id bid).head? with
  | some p => InputRef.mk (InputPointer.mk p.parent p.index)
  | none => InputRef.mk (InputPointer.mk (TxPointer.mk 0 0) 0)

theorem populate_tx_ok (f : Faults) (s : StoreState) :
    ∀ (l : List Bytes) (acc r : List InputRef),
      populate_tx f s acc l = PRes.ok r → r = acc ++ l.map (resolveOne s) := by
  intro l
  induction l with
  | nil =>
    intro acc r h
    simp only [populate_tx] at h
    cases h
    simp
  | cons bid rest ih =>
    intro acc r h
    simp only [populate_tx] at h
    by_cases hf : f.lookupFails bid
    · simp [hf] at h
    · simp only [hf, if_false] at h
      cases hh : (s.get_ids_by_box_id bid).head? with
      | some p =>
        rw [hh] at h
        have := ih _ _ h
        subst this
        simp [resolveOne, hh]
      | none =>
        rw [hh] at h
        have := ih _ _ h
        subst this
        simp [resolveOne, hh]

theorem populate_txs_ok (f : Faults) (s : StoreState) :
    ∀ (ts ts' : List Transaction),
      populate_txs f s ts = PRes.ok ts' →
      ts' = ts.map (fun t =>
        { t with inputs := t.inputs ++ t.transient_inputs.map (resolveOne s) }) := by
  intro ts
  induction ts with
  | nil =>
    intro ts' h
    simp only [populate_txs] at h
    cases h
    simp
  | cons tx rest ih =>
    intro ts' h
    simp only [populate_txs] at h
    cases h1 : populate_tx f s tx.inputs tx.transient_inputs with
    | processAbort => rw [h1] at h; cases h
    | ok newInputs =>
      rw [h1] at h
      cases h2 : populate_txs f s rest with
      | processAbort => rw [h2] at h; cases h
      | ok rest' =>
        rw [h2] at h
        cases h
        have e1 := populate_tx_ok f s _ _ _ h1
        have e2 := ih _ h2
        subst e1
        subst e2
        simp

theorem populate_block_ok (f : Faults) (s : StoreState) (b b' : Block)
    (h : populate_block f s b = PRes.ok b') :
    b' = { b with transactions := b.transactions.map (fun t =>
      { t with inputs := t.inputs ++ t.transient_inputs.map (resolveOne s) }) } := by
  simp only [populate_block] at h
  cases h1 : populate_txs f s b.transactions with
  | processAbort => rw [h1] at h; cases h
  | ok txs =>
    rw [h1] at h
    cases h
    have := populate_txs_ok f s _ _ h1
    subst this
    rfl

theorem populate_tx_nofault (f : Faults) (s : StoreState)
    (hf : ∀ bid, f.lookupFails bid = false) :
    ∀ (l : List Bytes) (acc : List InputRef),
      populate_tx f s acc l = PRes.ok (acc ++ l.map (resolveOne s)) := by
  intro l
  induction l with
  | nil => intro acc; simp [populate_tx]
  | cons bid rest ih =>
    intro acc
    simp only [populate_tx, hf bid, Bool.false_eq_true, if_false]
    cases hh : (s.get_ids_by_box_id bid).head? with
    | some p => simp [ih, resolveOne, hh]
    | none => simp [ih, resolveOne, hh]

theorem populate_txs_nofault (f : Faults) (s : StoreState)
    (hf : ∀ bid, f.lookupFails bid = false) :
    ∀ ts : List Transaction,
      populate_txs f s ts = PRes.ok (ts.map (fun t =>
        { t with inputs := t.inputs ++ t.transient_inputs.map (resolveOne s) })) := by
  intro ts
  induction ts with
  | nil => simp [populate_txs]
  | cons tx rest ih =>
    simp only [populate_txs, populate_tx_nofault f s hf, ih, List.map_cons]

theorem populate_block_nofault (f : Faults) (s : StoreState)
    (hf : ∀ bid, f.lookupFails bid = false) (b : Block) :
    populate_block f s b = PRes.ok { b with transactions := b.transactions.map (fun t =>
      { t with inputs := t.inputs ++ t.transient_inputs.map (resolveOne s) }) } := by
  simp only [populate_block, populate_txs_nofault f s hf]

theorem populate_tx_abort (f : Faults) (s : StoreState) :
    ∀ (l : List Bytes) (acc : List InputRef) (bid : Bytes),
      bid ∈ l → f.lookupFails bid = true →
      populate_tx f s acc l = PRes.processAbort := by
  intro l
  induction l with
  | nil => intro acc bid h; cases h
  | cons x rest ih =>
    intro acc bid hmem hfail
    rcases List.mem_cons.mp hmem with h | h
    · subst h; simp [populate_tx, hfail]
    · simp only [populate_tx]
      by_cases hx : f.lookupFails x
      · simp [hx]
      · simp only [hx, Bool.false_eq_true, if_false]
        cases hh : (s.get_ids_by_box_id x).head? with
        | some p => exact ih _ bid h hfail
        | none => exact ih _ bid h hfail

theorem populate_txs_abort (f : Faults) (s : StoreState) :
    ∀ (ts : List Transaction) (tx : Transaction) (bid : Bytes),
      tx ∈ ts → bid ∈ tx.transient_inputs → f.lookupFails bid = true →
      populate_txs f s ts = PRes.processAbort := by
  intro ts
  induction ts with
  | nil => intro tx bid h; cases h
  | cons t rest ih =>
    intro tx bid hmem hbid hfail
    rcases List.mem_cons.mp hmem with h | h
    · subst h
      simp [populate_txs, populate_tx_abort f s _ _ bid hbid hfail]
    · simp only [populate_txs]
      cases h1 : populate_tx f s t.inputs t.transient_inputs with
      | processAbort => rfl
      | ok newInputs => rw [ih tx bid h hbid hfail]

theorem populate_block_abort (f : Faults) (s : StoreState) (b : Block)
    (tx : Transaction) (bid : Bytes)
    (hmem : tx ∈ b.transactions) (hbid : bid ∈ tx.transient_inputs)
    (hfail : f.lookupFails bid = true) :
    populate_block f s b = PRes.processAbort := by
  simp [populate_block, populate_txs_abort f s _ tx bid hmem hbid hfail]

theorem store_blocks_append (f : Faults) :
    ∀ (xs : List Block) (s : StoreState) (ys : List Block),
      store_blocks f s (xs ++ ys) =
        (if (store_blocks f s xs).2 = SbOut.ok
          then store_blocks f (store_blocks f s xs).1 ys
          else store_blocks f s xs) := by
  intro xs
  induction xs with
  | nil => intro s ys; simp [store_blocks]
  | cons b rest ih =>
    intro s ys
    simp only [List.cons_append, store_blocks]
    cases hp : populate_block f s b with
    | processAbort => simp
    | ok b' =>
      by_cases hw : f.storeFails b'.id
      · simp [hw]
      · simp only [hw, Bool.false_eq_true, if_false]
        exact ih _ ys

theorem persistBlock_id (b : Block) : (persistBlock b).id = b.id := rfl

theorem put_fresh (s : StoreState) (b : PersistedBlock)
    (h : ∀ pb ∈ s.blocks, pb.id ≠ b.id) :
    (s.put b).blocks = s.blocks ++ [b] := by
  simp only [StoreState.put]
  congr 1
  exact List.filter_eq_self.mpr (fun pb hpb => by simpa using h pb hpb)

theorem store_blocks_ids (f : Faults)
    (hl : ∀ bid, f.lookupFails bid = false) (hw : ∀ hgt, f.storeFails hgt = false) :
    ∀ (blocks : List Block) (s : StoreState),
      (∀ pb ∈ s.blocks, ∀ b ∈ blocks, pb.id ≠ b.id) →
      (blocks.map Block.id).Nodup →
      (store_blocks f s blocks).1.blocks.map PersistedBlock.id
          = s.blocks.map PersistedBlock.id ++ blocks.map Block.id
        ∧ (store_blocks f s blocks).2 = SbOut.ok := by
  intro blocks
  induction blocks with
  | nil => intro s _ _; simp [store_blocks]
  | cons b rest ih =>
    intro s hfresh hnd
    simp only [store_blocks, populate_block_nofault f s hl, hw, Bool.false_eq_true, if_false]
    have hput : (s.put (persistBlock { b with transactions := b.transactions.map (fun t =>
        { t with inputs := t.inputs ++ t.transient_inputs.map (resolveOne s) }) })).blocks
        = s.blocks ++ [persistBlock { b with transactions := b.transactions.map (fun t =>
        { t with inputs := t.inputs ++ t.transient_inputs.map (resolveOne s) }) }] := by
      apply put_fresh
      intro pb hpb
      exact hfresh pb hpb b (List.mem_cons_self b rest)
    rw [List.map_cons] at hnd
    have hnd2 := List.nodup_cons.mp hnd
    have hnd' : (rest.map Block.id).Nodup := hnd2.2
    have hbid_notin : b.id ∉ rest.map Block.id := hnd2.1
    have hfresh' : ∀ pb ∈ (s.put (persistBlock { b with transactions := b.transactions.map (fun t =>
        { t with inputs := t.inputs ++ t.transient_inputs.map (resolveOne s) }) })).blocks,
        ∀ b' ∈ rest, pb.id ≠ b'.id := by
      rw [hput]
      intro pb hpb b' hb'
      rcases List.mem_append.mp hpb with h | h
      · exact hfresh pb h b' (List.mem_cons_of_mem b hb')
      · rcases List.mem_singleton.mp h with rfl
        simp only [persistBlock_id]
        intro hcontra
        exact hbid_notin (by rw [hcontra]; exact List.mem_map_of_mem Block.id hb')
    obtain ⟨h1, h2⟩ := ih _ hfresh' hnd'
    refine ⟨?_, h2⟩
    rw [h1, hput]
    simp [persistBlock_id]

theorem takeWhile_all {α : Type} (p : α → Bool) :
    ∀ l : List α, (∀ x ∈ l, p x = true) → l.takeWhile p = l := by
  intro l
  induction l with
  | nil => intro _; rfl
  | cons x xs ih =>
    intro h
    simp only [List.takeWhile_cons, h x (List.mem_cons_self x xs), if_true]
    rw [ih (fun y hy => h y (List.mem_cons_of_mem x hy))]

theorem map_getD_range {β : Type} (g : Nat → β) :
    ∀ l : List Nat, (List.range l.length).map (fun i => g (l.getD i 0)) = l.map g := by
  intro l
  induction l with
  | nil => simp
  | cons x xs ih =>
    have hfun : ((fun i => g ((x :: xs).getD i 0)) ∘ Nat.succ) = fun i => g (xs.getD i 0) := by
      funext i
      simp [List.getD_cons_succ]
    simp only [List.length_cons, List.range_succ_eq_map, List.map_cons, List.map_map,
      List.getD_cons_zero, hfun, ih]

instance : Inhabited TxPointer := ⟨⟨0, 0⟩⟩

instance : Inhabited UtxoPointer := ⟨⟨default, 0⟩⟩

instance : Inhabited AssetPointer := ⟨⟨default, 0⟩⟩

instance : Inhabited AssetAction := ⟨AssetAction.Transfer⟩

instance : Inhabited Asset := ⟨⟨default, 0, [], default⟩⟩

instance : Inhabited Utxo := ⟨⟨default, 0, [], [], [], [], []⟩⟩

theorem chain_lt_range' : ∀ (n s : Nat), List.Chain' (· < ·) (List.range' s n) := by
  intro n
  induction n with
  | zero => intro s; simp
  | succ m ih =>
    intro s
    rw [List.range'_succ]
    apply List.Chain'.cons'
    · exact ih (s + 1)
    · intro y hy
      cases m with
      | zero => simp at hy
      | succ k =>
        rw [List.range'_succ] at hy
        simp only [List.head?_cons, Option.mem_def, Option.some.injEq] at hy
        omega

/-- The mint/transfer classification of every asset built by `mk_assets`,
expressed against the first output of the `outs` slice. -/
theorem mem_mk_assets_action (outs : List ErgoBox) (up : UtxoPointer) :
    ∀ (ts : List RawToken) (i : Nat) (a : Asset), a ∈ mk_assets outs up i ts →
      match outs.head? with
      | some o0 => (a.asset_action = AssetAction.Mint ↔ a.name = o0.box_id)
          ∧ (a.name ≠ o0.box_id → a.asset_action = AssetAction.Transfer)
      | none => a.asset_action = AssetAction.Transfer := by
  intro ts
  induction ts with
  | nil => intro i a h; cases h
  | cons t rest ih =>
    intro i a h
    rcases List.mem_cons.mp h with h | h
    · subst h
      cases hh : outs.head? with
      | some o0 =>
        simp only [mk_assets, hh]
        by_cases heq : o0.box_id = t.token_id
        · simp [heq]
        · simp [heq, eq_comm]
          exact fun hc => heq hc.symm
      | none => simp [mk_assets, hh]
    · exact ih (i + 1) a h

theorem mem_process_outputs_go (outs : List ErgoBox) (tp : TxPointer) :
    ∀ (l : List ErgoBox) (i : Nat) (u : Utxo), u ∈ process_outputs_go outs tp i l →
      ∃ k o, o ∈ l ∧ u = mk_utxo outs tp k o := by
  intro l
  induction l with
  | nil => intro i u h; cases h
  | cons o rest ih =>
    intro i u h
    rcases List.mem_cons.mp h with h | h
    · exact ⟨i, o, List.mem_cons_self o rest, h⟩
    · obtain ⟨k, o', ho', hu⟩ := ih (i + 1) u h
      exact ⟨k, o', List.mem_cons_of_mem o ho', hu⟩

/-- Every transaction produced by the transaction loop carries exactly the
outputs built by `process_outputs` from some raw transaction. -/
theorem mem_process_txs (height : Nat) :
    ∀ (rts : List RawTx) (i : Nat) (tx : Transaction), tx ∈ (process_txs height i rts).2 →
      ∃ k rt, rt ∈ rts ∧
        tx.utxos = process_outputs_go rt.outputs (TxPointer.mk height (k % 2 ^ 16)) 0 rt.outputs := by
  intro rts
  induction rts with
  | nil => intro i tx h; cases h
  | cons rt rest ih =>
    intro i tx h
    simp only [process_txs] at h
    rcases List.mem_cons.mp h with h | h
    · subst h
      exact ⟨i, rt, List.mem_cons_self rt rest, rfl⟩
    · obtain ⟨k, rt', hrt', hu⟩ := ih (i + 1) tx h
      exact ⟨k, rt', List.mem_cons_of_mem rt hrt', hu⟩

theorem mk_assets_length (outs : List ErgoBox) (up : UtxoPointer) :
    ∀ (ts : List RawToken) (i : Nat), (mk_assets outs up i ts).length = ts.length := by
  intro ts
  induction ts with
  | nil => intro i; rfl
  | cons t rest ih => intro i; simp [mk_assets, ih]

theorem mk_utxo_assets_length (outs : List ErgoBox) (tp : TxPointer) (i : Nat) (o : ErgoBox) :
    (mk_utxo outs tp i o).assets.length = (o.tokens.getD []).length := by
  simp only [mk_utxo]
  cases o.tokens with
  | some ts => simp [mk_assets_length]
  | none => rfl

theorem process_outputs_go_counts (outs : List ErgoBox) (tp : TxPointer) :
    ∀ (l : List ErgoBox) (i : Nat),
      ((process_outputs_go outs tp i l).map (fun u => u.assets.length)).sum
          = (l.map (fun o => (o.tokens.getD []).length)).sum
        ∧ (process_outputs_go outs tp i l).length = l.length := by
  intro l
  induction l with
  | nil => intro i; simp [process_outputs_go]
  | cons o rest ih =>
    intro i
    simp only [process_outputs_go, List.map_cons, List.sum_cons, List.length_cons]
    obtain ⟨h1, h2⟩ := ih (i + 1)
    rw [h1, h2, mk_utxo_assets_length]
    simp

/-- The per-transaction weight accumulated by the normalizer, written the way
the claim states it: output count plus token count plus input count. -/
def rawTxWeight (tx : RawTx) : Nat :=
  tx.outputs.length + (tx.outputs.map (fun o => (o.tokens.getD []).length)).sum + tx.inputs.length

theorem process_txs_fst (height : Nat) :
    ∀ (rts : List RawTx) (i : Nat),
      (process_txs height i rts).1 = (rts.map rawTxWeight).sum := by
  intro rts
  induction rts with
  | nil => intro i; rfl
  | cons rt rest ih =>
    intro i
    simp only [process_txs, process_outputs, List.map_cons, List.sum_cons]
    obtain ⟨h1, h2⟩ := process_outputs_go_counts rt.outputs
      (TxPointer.mk height (i % 2 ^ 16)) rt.outputs 0
    rw [h1, h2, ih (i + 1), rawTxWeight]
    omega

instance : Inhabited Transaction := ⟨⟨default, [], [], [], []⟩⟩

/-! ### Concrete fixtures used by the evaluation theorems and witnesses -/

/-- A raw output box with the given box identifier and no tokens. -/
def plainBox (bid : Bytes) : ErgoBox :=
  { box_id := bid, value := 100, ergo_tree_bytes := some [2], ergo_tree_t8 := some [3],
    address_bytes := some [4], tokens := none }

/-- A raw block at height 1 whose second transaction spends the box produced
by the first transaction of the same block. -/
def sameBlockSpendRaw : FullBlock :=
  { header := { height := 1, id := [7], parent_id := [6], timestamp := 5000 },
    block_transactions :=
      [ { hash := [10], inputs := [], outputs := [plainBox [1]] },
        { hash := [11], inputs := [{ box_id := [1] }], outputs := [plainBox [9]] } ] }

/-! ### Claims -/

/-- Claim C1.  The claim states that during `store_blocks` an input spending
a box identifier produced by an earlier output of the same block resolves to
that output's pointer, because resolution sees the block's own staged
outputs.  The code refutes this: `store_blocks` opens its read snapshot
before the block is written, so the same-block output is invisible and the
input resolves to the sentinel (height 0, tx 0, out 0) instead of the
producing output's pointer (height 1, tx 0, out 0).  This theorem evaluates
the code at the failing input: storing the normalized `sameBlockSpendRaw`
block into an empty store commits the self-spending input as the sentinel. -/
theorem same_block_spend_resolves_to_sentinel :
    ((store_blocks noFaults (StoreState.mk []) [process_block sameBlockSpendRaw]).1.blocks.map
        (fun pb => pb.transactions.map (fun t => t.inputs.map (fun r => r.id))))
      = [[[], [InputPointer.mk (TxPointer.mk 0 0) 0]]]
    ∧ (store_blocks noFaults (StoreState.mk []) [process_block sameBlockSpendRaw]).2 = SbOut.ok
    ∧ InputPointer.mk (TxPointer.mk 0 0) 0 ≠ InputPointer.mk (TxPointer.mk 1 0) 0 := by
  refine ⟨rfl, rfl, ?_⟩
  decide

/-- Claim C2.  For every block whose input resolution succeeds, each
transaction's resolved input list is its previous list extended by exactly
one `InputRef` per transient raw spent box identifier, and each such
`InputRef` is the first secondary-index match's coordinates when a match
exists and the sentinel (height 0, tx 0, out 0) when none does. -/
theorem input_resolution_first_match_or_sentinel (f : Faults) (s : StoreState) (b b' : Block)
    (h : populate_block f s b = PRes.ok b') :
    (b'.transactions.map (fun t => t.inputs)
        = b.transactions.map (fun t => t.inputs ++ t.transient_inputs.map (resolveOne s)))
    ∧ (∀ bid p, (s.get_ids_by_box_id bid).head? = some p →
        resolveOne s bid = InputRef.mk (InputPointer.mk p.parent p.index))
    ∧ (∀ bid, (s.get_ids_by_box_id bid).head? = none →
        resolveOne s bid = InputRef.mk (InputPointer.mk (TxPointer.mk 0 0) 0)) := by
  refine ⟨?_, ?_, ?_⟩
  · have hb := populate_block_ok f s b b' h
    subst hb
    simp
  · intro bid p hp
    simp [resolveOne, hp]
  · intro bid hp
    simp [resolveOne, hp]

/-- Store fixture for the C2 witness: one committed block at height 1 with a
single output whose box identifier is `[5]`. -/
def c2Store : StoreState :=
  { blocks := [
    { id := 1,
      header := { id := 1, hash := [7], prev_hash := [6], timestamp := 5 },
      transactions := [
        { id := TxPointer.mk 1 0, hash := [10],
          utxos := [
            { id := UtxoPointer.mk (TxPointer.mk 1 0) 0, amount := 100, box_id := [5],
              address := [], tree := [], tree_t8 := [], assets := [] } ],
          inputs := [] } ] } ] }

/-- Block fixture for the C2 witness: one transaction spending the known box
`[5]` and the unknown box `[6]`. -/
def c2Blk : Block :=
  { id := 2, header := { id := 2, hash := [8], prev_hash := [7], timestamp := 6 },
    transactions := [
      { id := TxPointer.mk 2 0, hash := [11], utxos := [], inputs := [],
        transient_inputs := [[5], [6]] } ],
    weight := 3 }

/-- The resolved form of `c2Blk` against `c2Store`: the known box resolves to
the committed output's coordinates and the unknown one to the sentinel. -/
def c2BlkRes : Block :=
  { id := 2, header := { id := 2, hash := [8], prev_hash := [7], timestamp := 6 },
    transactions := [
      { id := TxPointer.mk 2 0, hash := [11], utxos := [],
        inputs := [ InputRef.mk (InputPointer.mk (TxPointer.mk 1 0) 0),
                    InputRef.mk (InputPointer.mk (TxPointer.mk 0 0) 0) ],
        transient_inputs := [[5], [6]] } ],
    weight := 3 }

/-- Witness for claim C2 at a concrete store and block. -/
theorem input_resolution_first_match_or_sentinel_witness :
    c2BlkRes.transactions.map (fun t => t.inputs)
      = c2Blk.transactions.map (fun t => t.inputs ++ t.transient_inputs.map (resolveOne c2Store)) :=
  (input_resolution_first_match_or_sentinel noFaults c2Store c2Blk c2BlkRes rfl).1

/-- Claim C3.  In every normalized block, an asset is tagged `Mint` exactly
when its token identity equals the box identifier of the first output of its
owning transaction, and every other asset is tagged `Transfer`. -/
theorem mint_iff_first_output_box_id (rb : FullBlock) :
    ∀ tx ∈ (process_block rb).transactions, ∀ u ∈ tx.utxos, ∀ a ∈ u.assets,
      (a.asset_action = AssetAction.Mint ↔ a.name = (tx.utxos.getD 0 default).box_id)
      ∧ (a.name ≠ (tx.utxos.getD 0 default).box_id → a.asset_action = AssetAction.Transfer) := by
  intro tx htx u hu a ha
  have htx' : tx ∈ (process_txs rb.header.height 0 rb.block_transactions).2 := htx
  obtain ⟨k, rt, hrt, hutxos⟩ :=
    mem_process_txs rb.header.height rb.block_transactions 0 tx htx'
  rw [hutxos] at hu
  obtain ⟨j, o, ho, huo⟩ := mem_process_outputs_go rt.outputs _ rt.outputs 0 u hu
  cases houts : rt.outputs with
  | nil => rw [houts] at ho; cases ho
  | cons o0 orest =>
    have hhead : tx.utxos.getD 0 default
        = mk_utxo rt.outputs (TxPointer.mk rb.header.height (k % 2 ^ 16)) 0 o0 := by
      rw [hutxos, houts]
      rfl
    subst huo
    cases hts : o.tokens with
    | none => simp [mk_utxo, hts] at ha
    | some ts =>
      have ha' : a ∈ mk_assets rt.outputs
          (UtxoPointer.mk (TxPointer.mk rb.header.height (k % 2 ^ 16)) (j % 2 ^ 16)) 0 ts := by
        simpa [mk_utxo, hts] using ha
      have hmatch := mem_mk_assets_action rt.outputs _ ts 0 a ha'
      rw [houts] at hmatch
      simp only [List.head?_cons] at hmatch
      have hbox : (mk_utxo rt.outputs (TxPointer.mk rb.header.height (k % 2 ^ 16)) 0 o0).box_id
          = o0.box_id := rfl
      rw [hhead, hbox]
      exact hmatch

/-- Raw block fixture for the C3 witness: its only output mints the token
whose identity equals that output's own box identifier `[1]`, and also
carries a foreign token `[2]`. -/
def c3Raw : FullBlock :=
  { header := { height := 3, id := [3], parent_id := [2], timestamp := 9999 },
    block_transactions := [
      { hash := [12], inputs := [],
        outputs := [
          { box_id := [1], value := 10, ergo_tree_bytes := none, ergo_tree_t8 := none,
            address_bytes := none,
            tokens := some [ { token_id := [1], amount := 5 },
                             { token_id := [2], amount := 7 } ] } ] } ] }

/-- The first (and only) normalized transaction of `c3Raw`. -/
def c3Tx : Transaction := (process_block c3Raw).transactions.getD 0 default

/-- The only output of `c3Tx`. -/
def c3Utxo : Utxo := c3Tx.utxos.getD 0 default

/-- The first asset of `c3Utxo` (token identity `[1]`: a mint). -/
def c3AssetMint : Asset := c3Utxo.assets.getD 0 default

/-- Witness for claim C3 at a concrete raw block. -/
theorem mint_iff_first_output_box_id_witness :
    (c3AssetMint.asset_action = AssetAction.Mint
        ↔ c3AssetMint.name = (c3Tx.utxos.getD 0 default).box_id)
    ∧ (c3AssetMint.name ≠ (c3Tx.utxos.getD 0 default).box_id
        → c3AssetMint.asset_action = AssetAction.Transfer) :=
  mint_iff_first_output_box_id c3Raw c3Tx (by decide) c3Utxo (by decide) c3AssetMint (by decide)

/-- Claim C4.  `store_blocks` processes its blocks strictly one at a time in
list order (hence in ascending height order when the given heights ascend),
resolves each block against the state left by its predecessors before
writing it in a single transaction, and a write failure at block N returns
an error leaving exactly the state committed by the earlier blocks. -/
theorem store_blocks_sequential_atomic :
    (∀ (f : Faults) (s : StoreState) (xs ys : List Block),
      store_blocks f s (xs ++ ys) =
        (if (store_blocks f s xs).2 = SbOut.ok
          then store_blocks f (store_blocks f s xs).1 ys
          else store_blocks f s xs))
    ∧ (∀ (f : Faults) (s : StoreState) (b b' : Block) (rest : List Block),
        populate_block f s b = PRes.ok b' → f.storeFails b'.id = false →
        store_blocks f s (b :: rest) = store_blocks f (s.put (persistBlock b')) rest)
    ∧ (∀ (f : Faults) (s : StoreState) (b b' : Block) (rest : List Block),
        populate_block f s b = PRes.ok b' → f.storeFails b'.id = true →
        store_blocks f s (b :: rest) = (s, SbOut.storeErr))
    ∧ (∀ (f : Faults) (blocks : List Block),
        (∀ bid, f.lookupFails bid = false) → (∀ hgt, f.storeFails hgt = false) →
        List.Chain' (· < ·) (blocks.map Block.id) →
        (store_blocks f (StoreState.mk []) blocks).1.blocks.map PersistedBlock.id
            = blocks.map Block.id
          ∧ (store_blocks f (StoreState.mk []) blocks).2 = SbOut.ok) := by
  refine ⟨?_, ?_, ?_, ?_⟩
  · intro f s xs ys
    exact store_blocks_append f xs s ys
  · intro f s b b' rest h hw
    simp [store_blocks, h, hw]
  · intro f s b b' rest h hw
    simp [store_blocks, h, hw]
  · intro f blocks hl hw hchain
    have hpw : (blocks.map Block.id).Pairwise (· < ·) := List.chain'_iff_pairwise.mp hchain
    have hnd : (blocks.map Block.id).Nodup := hpw.imp Nat.ne_of_lt
    have hmain := store_blocks_ids f hl hw blocks (StoreState.mk [])
      (by intro pb hpb; cases hpb) hnd
    simpa using hmain

/-- Faults fixture for the C4 witness: the write transaction for block id 1
fails, lookups succeed. -/
def c4Faults : Faults :=
  { lookupFails := fun _ => false, storeFails := fun hgt => decide (hgt = 1) }

/-- Block fixture for the C4 witness: a block at height 1 with one
transaction and no inputs. -/
def c4Blk : Block :=
  { id := 1, header := { id := 1, hash := [3], prev_hash := [2], timestamp := 4 },
    transactions := [
      { id := TxPointer.mk 1 0, hash := [9], utxos := [], inputs := [],
        transient_inputs := [] } ],
    weight := 1 }

/-- Witness for claim C4: a failing write at a concrete block returns the
store error and leaves the store untouched, and a fault-free run over two
ascending blocks commits exactly their ids in order. -/
theorem store_blocks_sequential_atomic_witness :
    store_blocks c4Faults (StoreState.mk []) [c4Blk] = (StoreState.mk [], SbOut.storeErr)
    ∧ (store_blocks noFaults (StoreState.mk [])
        [c4Blk, { c4Blk with id := 2 }]).1.blocks.map PersistedBlock.id = [1, 2] := by
  constructor
  · exact store_blocks_sequential_atomic.2.2.1 c4Faults (StoreState.mk []) c4Blk c4Blk [] rfl rfl
  · have h := (store_blocks_sequential_atomic.2.2.2 noFaults [c4Blk, { c4Blk with id := 2 }]
      (fun _ => rfl) (fun _ => rfl) (by simp [c4Blk])).1
    rw [h]
    decide

/-- Claim C5.  The claim states that `updateBlocks([B])` immediately followed
by `storeBlocks([B])` yields state identical to a single `storeBlocks([B])`
on an empty store.  The code refutes this: for a block whose second
transaction spends its first transaction's output, the single store resolves
that input to the sentinel (the same-block resolution bug of C1), while the
second store of the update/store sequence resolves it against the
already-committed copy of the block and commits the genuine pointer
(height 1, tx 0, out 0), so the two final states differ.  This theorem
evaluates both sides at that failing input. -/
theorem update_then_store_differs_from_single_store :
    ((store_blocks noFaults
        (update_blocks noFaults (StoreState.mk []) [process_block sameBlockSpendRaw]).1
        [process_block sameBlockSpendRaw]).1.blocks.map
          (fun pb => pb.transactions.map (fun t => t.inputs.map (fun r => r.id))))
      = [[[], [InputPointer.mk (TxPointer.mk 1 0) 0]]]
    ∧ ((store_blocks noFaults (StoreState.mk []) [process_block sameBlockSpendRaw]).1.blocks.map
          (fun pb => pb.transactions.map (fun t => t.inputs.map (fun r => r.id))))
      = [[[], [InputPointer.mk (TxPointer.mk 0 0) 0]]]
    ∧ (store_blocks noFaults
          (update_blocks noFaults (StoreState.mk []) [process_block sameBlockSpendRaw]).1
          [process_block sameBlockSpendRaw]).1
        ≠ (store_blocks noFaults (StoreState.mk []) [process_block sameBlockSpendRaw]).1 := by
  refine ⟨rfl, rfl, ?_⟩
  decide

/-- Claim C6.  For a tip at height H and a last indexed header at height L
(L = 1 when absent), the stream emits the fetched blocks for exactly the
heights L..H in strictly increasing order, for any parallelism bound and any
completion schedule covering all fetches. -/
theorem stream_emits_exact_ascending_range (chain_tip : BlockHeader) (last : Option BlockHeader)
    (fetch : Nat → FullBlock) (par : Nat) (completed : List Nat)
    (hpar : 1 ≤ par)
    (hdone : ∀ i, i < (stream_heights chain_tip last).length → i ∈ completed)
    (hfetch : ∀ h, (fetch h).header.height = h) :
    (stream_emitted fetch chain_tip last par completed).map (fun b => b.header.height)
        = List.range' (last_height last) (chain_tip.id + 1 - last_height last)
      ∧ List.Chain' (· < ·)
          ((stream_emitted fetch chain_tip last par completed).map (fun b => b.header.height))
      ∧ (last = none → last_height last = 1) := by
  have hbuf : bufferedEmit (stream_heights chain_tip last).length completed
      = List.range (stream_heights chain_tip last).length := by
    apply takeWhile_all
    intro x hx
    have hxlt := List.mem_range.mp hx
    simpa using hdone x hxlt
  have hmap : (stream_emitted fetch chain_tip last par completed).map (fun b => b.header.height)
      = (stream_heights chain_tip last).map (fun h => (fetch h).header.height) := by
    simp only [stream_emitted, hbuf, List.map_map]
    exact map_getD_range (fun h => (fetch h).header.height) (stream_heights chain_tip last)
  have hid : (stream_heights chain_tip last).map (fun h => (fetch h).header.height)
      = stream_heights chain_tip last := by
    simp [hfetch]
  refine ⟨?_, ?_, ?_⟩
  · rw [hmap, hid]
    rfl
  · rw [hmap, hid]
    exact chain_lt_range' _ _
  · intro h
    subst h
    rfl

/-- Tip fixture for the C6 witness: height 3. -/
def c6Tip : BlockHeader := { id := 3, hash := [9], prev_hash := [8], timestamp := 1 }

/-- Fetch fixture for the C6 witness: a raw block of the requested height. -/
def c6Fetch : Nat → FullBlock := fun h =>
  { header := { height := h, id := [h], parent_id := [h + 1], timestamp := 0 },
    block_transactions := [] }

/-- Witness for claim C6 at a concrete tip, absent last header, parallelism 1
and an out-of-order completion schedule. -/
theorem stream_emits_exact_ascending_range_witness :
    (stream_emitted c6Fetch c6Tip none 1 [2, 0, 1]).map (fun b => b.header.height)
      = [1, 2, 3] := by
  have h := stream_emits_exact_ascending_range c6Tip none c6Fetch 1 [2, 0, 1]
    (by decide) (by decide) (fun h => rfl)
  exact h.1.trans (by decide)

/-- Claim C7 (amended).  A write-transaction failure during `store_blocks`
propagates to the caller as a returned error with the earlier commits
untouched and no retry, but a failure of the secondary-index lookup inside
input resolution does not propagate: the `.expect` call aborts the process
instead (the part of the claim about lookups is refuted by
`lookup_failure_aborts_instead_of_returning_error`). -/
theorem store_failure_returns_error_lookup_failure_aborts :
    (∀ (f : Faults) (s : StoreState) (b b' : Block) (rest : List Block),
        populate_block f s b = PRes.ok b' → f.storeFails b'.id = true →
        store_blocks f s (b :: rest) = (s, SbOut.storeErr))
    ∧ (∀ (f : Faults) (s : StoreState) (b : Block) (rest : List Block)
        (tx : Transaction) (bid : Bytes),
        tx ∈ b.transactions → bid ∈ tx.transient_inputs → f.lookupFails bid = true →
        store_blocks f s (b :: rest) = (s, SbOut.processAbort)) := by
  constructor
  · intro f s b b' rest h hw
    simp [store_blocks, h, hw]
  · intro f s b rest tx bid hmem hbid hfail
    simp [store_blocks, populate_block_abort f s b tx bid hmem hbid hfail]

/-- Faults fixture for the C7 counterexample: the index lookup for box id
`[1]` fails with an I/O error. -/
def c7Faults : Faults :=
  { lookupFails := fun bid => decide (bid = [1]), storeFails := fun _ => false }

/-- Transaction fixture for the C7 counterexample: spends box id `[1]`. -/
def c7Tx : Transaction :=
  { id := TxPointer.mk 1 0, hash := [9], utxos := [], inputs := [],
    transient_inputs := [[1]] }

/-- Block fixture for the C7 counterexample. -/
def c7Blk : Block :=
  { id := 1, header := { id := 1, hash := [3], prev_hash := [2], timestamp := 4 },
    transactions := [c7Tx], weight := 1 }

/-- Counterexample to claim C7 as stated: an I/O failure of the
secondary-index lookup performed by input resolution does not reach the
caller as a returned error — the process aborts (the `.expect` panic in
`populate_inputs`). -/
theorem lookup_failure_aborts_instead_of_returning_error :
    store_blocks c7Faults (StoreState.mk []) [c7Blk] = (StoreState.mk [], SbOut.processAbort)
    ∧ SbOut.processAbort ≠ SbOut.storeErr := by
  refine ⟨rfl, ?_⟩
  decide

/-- Faults fixture for the C7 witness: the write for block id 5 fails. -/
def c7wFaults : Faults :=
  { lookupFails := fun _ => false, storeFails := fun hgt => decide (hgt = 5) }

/-- Block fixture for the C7 witness. -/
def c7wBlk : Block :=
  { id := 5, header := { id := 5, hash := [3], prev_hash := [2], timestamp := 4 },
    transactions := [], weight := 0 }

/-- Witness for the amended claim C7 at concrete faults and blocks. -/
theorem store_failure_returns_error_lookup_failure_aborts_witness :
    store_blocks c7wFaults (StoreState.mk []) [c7wBlk] = (StoreState.mk [], SbOut.storeErr)
    ∧ store_blocks c7Faults (StoreState.mk []) [c7Blk]
        = (StoreState.mk [], SbOut.processAbort) :=
  ⟨store_failure_returns_error_lookup_failure_aborts.1 c7wFaults (StoreState.mk [])
      c7wBlk c7wBlk [] rfl rfl,
    store_failure_returns_error_lookup_failure_aborts.2 c7Faults (StoreState.mk [])
      c7Blk [] c7Tx [1] (by decide) (by decide) rfl⟩

/-- Claim C8.  The normalizer computes the block weight as the sum over all
transactions of (output count) + (token count across the outputs) + (input
count), and the weight is a transient field the persisted projection never
depends on. -/
theorem block_weight_formula_and_transient (rb : FullBlock)
    (h : (rb.block_transactions.map rawTxWeight).sum < 2 ^ 32) :
    (process_block rb).weight = (rb.block_transactions.map rawTxWeight).sum
    ∧ ∀ (b : Block) (w : Nat), persistBlock { b with weight := w } = persistBlock b := by
  constructor
  · have hw : (process_block rb).weight
        = (process_txs rb.header.height 0 rb.block_transactions).1 % 2 ^ 32 := rfl
    rw [hw, process_txs_fst rb.header.height rb.block_transactions 0]
    exact Nat.mod_eq_of_lt h
  · intro b w
    rfl

/-- Witness for claim C8 at a concrete raw block (1 output in the first
transaction; 1 output plus 1 input in the second: weight 3). -/
theorem block_weight_formula_and_transient_witness :
    (process_block sameBlockSpendRaw).weight = 3 := by
  have h := (block_weight_formula_and_transient sameBlockSpendRaw (by decide)).1
  exact h.trans (by decide)

/-- Claim C9.  The normalized header copies height, block hash and previous
hash directly from the raw header, and its timestamp is the raw millisecond
timestamp integer-divided by 1000. -/
theorem header_copied_timestamp_truncated (rb : FullBlock)
    (h : rb.header.timestamp / 1000 < 2 ^ 32) :
    (process_block rb).header.id = rb.header.height
    ∧ (process_block rb).header.hash = rb.header.id
    ∧ (process_block rb).header.prev_hash = rb.header.parent_id
    ∧ (process_block rb).header.timestamp = rb.header.timestamp / 1000 := by
  refine ⟨rfl, rfl, rfl, ?_⟩
  have ht : (process_block rb).header.timestamp = rb.header.timestamp / 1000 % 2 ^ 32 := rfl
  rw [ht]
  exact Nat.mod_eq_of_lt h

/-- Witness for claim C9 at a concrete raw block (5000 ms = 5 s). -/
theorem header_copied_timestamp_truncated_witness :
    (process_block sameBlockSpendRaw).header.timestamp = 5 := by
  have h := (header_copied_timestamp_truncated sameBlockSpendRaw (by decide)).2.2.2
  exact h.trans (by decide)

/-- Claim C10.  Input resolution (the phase `store_blocks` runs on each block
before writing it) appends exactly one `InputRef` per entry of each
transaction's transient raw-input list, in list order, and changes nothing
else: block id, header, weight, transaction hashes, outputs with their
assets, and the transient lists themselves are unchanged. -/
theorem populate_inputs_frame (f : Faults) (s : StoreState) (b b' : Block)
    (h : populate_block f s b = PRes.ok b') :
    b' = { b with transactions := b.transactions.map (fun t =>
        { t with inputs := t.inputs ++ t.transient_inputs.map (resolveOne s) }) }
    ∧ b'.id = b.id ∧ b'.header = b.header ∧ b'.weight = b.weight
    ∧ b'.transactions.map Transaction.hash = b.transactions.map Transaction.hash
    ∧ b'.transactions.map Transaction.utxos = b.transactions.map Transaction.utxos
    ∧ b'.transactions.map (fun t => t.transient_inputs)
        = b.transactions.map (fun t => t.transient_inputs)
    ∧ b'.transactions.map (fun t => t.inputs.length)
        = b.transactions.map (fun t => t.inputs.length + t.transient_inputs.length) := by
  have hb := populate_block_ok f s b b' h
  subst hb
  refine ⟨rfl, rfl, rfl, rfl, ?_, ?_, ?_, ?_⟩ <;> simp

/-- Witness for claim C10 at a concrete store and block. -/
theorem populate_inputs_frame_witness :
    c2BlkRes.id = c2Blk.id ∧ c2BlkRes.weight = c2Blk.weight := by
  have h := populate_inputs_frame noFaults c2Store c2Blk c2BlkRes rfl
  exact ⟨h.2.1, h.2.2.2.1⟩

end Ergo
